import Mathlib

/-!
# Verification of the Q&A generation core (AIE_final_project)

Shallow embedding of the core of the repository: the generation loop of
`QAGenerator.generate_qa`, the response parser `QAGenerator._parse_qa_response`,
the PDF extraction gate `QAGenerator._read_pdf` / `_read_pdf_with_ocr`, the
ingestion function `QAGenerator.process_document` (src/services/qa_generator.py),
and the grading logic of `submit_answer` / `_simple_answer_check`
(src/api/main.py).

Strings are modelled by Lean `String` (a list of unicode code points), which
matches Python's `str` for the operations used by the code: `len` counts code
points, slicing and concatenation are on code points.  Python's whitespace
(`str.strip`, `str.split()` and the regex class `\s`) is modelled by the ASCII
whitespace characters, which is faithful for every input considered here.
Case mapping (`str.lower` / `str.upper`) is modelled ASCII-only; the Japanese
characters occurring in the code have no case in Python either.
-/

/-- ASCII whitespace, modelling Python's `str.isspace` / regex `\s` on the
ASCII range: space, tab, newline, carriage return, vertical tab, form feed. -/
def isPySpace (c : Char) : Bool :=
  c == ' ' || c == '\t' || c == '\n' || c == '\r' || c == '\x0b' || c == '\x0c'

/-- `str.strip()` on the character list: drop leading and trailing whitespace. -/
def pyStripChars (l : List Char) : List Char :=
  ((l.dropWhile isPySpace).reverse.dropWhile isPySpace).reverse

/-- Python `s.strip()`. -/
def pyStrip (s : String) : String := ⟨pyStripChars s.data⟩

/-- Python `s.lower()` (ASCII case mapping). -/
def pyLower (s : String) : String := ⟨s.data.map Char.toLower⟩

/-- Python `s.upper()` (ASCII case mapping). -/
def pyUpper (s : String) : String := ⟨s.data.map Char.toUpper⟩

/-- `startsWithChars p l` holds when the character list `p` is an initial
segment of `l`; models Python `str.startswith`. -/
def startsWithChars : List Char → List Char → Bool
  | [], _ => true
  | _ :: _, [] => false
  | p :: ps, c :: cs => p == c && startsWithChars ps cs

/-- Python `line.startswith(pre)`. -/
def startsWithS (line pre : String) : Bool := startsWithChars pre.data line.data

/-- Characters strictly after the first `':'` of the list (Python
`line.split(':', 1)[1]`; the callers only use it on lines that contain a
colon). -/
def afterColonChars : List Char → List Char
  | [] => []
  | c :: cs => if c = ':' then cs else afterColonChars cs

/-- Python `line.split(':', 1)[1].strip()`. -/
def afterColon (line : String) : String := ⟨pyStripChars (afterColonChars line.data)⟩

/-- Python `s.split('\n')` on character lists: split at every newline,
keeping empty pieces (`"".split('\n') == ['']`). -/
def splitLinesChars : List Char → List (List Char)
  | [] => [[]]
  | c :: cs =>
    if c = '\n' then [] :: splitLinesChars cs
    else
      match splitLinesChars cs with
      | [] => [[c]]
      | l :: ls => (c :: l) :: ls

/-- Python `s.split('\n')` producing strings. -/
def splitLinesS (s : String) : List String := (splitLinesChars s.data).map String.mk

/-- Python `s.split()` (no argument): whitespace-run splitting, no empty
pieces.  `acc` holds the (reversed) current word. -/
def splitWsAux : List Char → List Char → List (List Char)
  | [], acc => if acc.isEmpty then [] else [acc.reverse]
  | c :: cs, acc =>
    if isPySpace c then
      if acc.isEmpty then splitWsAux cs [] else acc.reverse :: splitWsAux cs []
    else splitWsAux cs (c :: acc)

/-- Python `s.split()` producing strings. -/
def pySplitWs (s : String) : List String := (splitWsAux s.data []).map String.mk

/-! ## ResponseParser — `QAGenerator._parse_qa_response` -/

/-- A generated Q&A item, the dict produced by `_parse_qa_response`.
The Python dict carries the keys `choices` / `correct_answer` / `explanation`
only on the multiple-choice path; here the fields always exist and hold the
parsing accumulator's values (empty outside that path), which is what every
consumer reads. -/
structure ParsedQA where
  question : String
  answer : String
  difficulty : String
  question_type : String
  choices : List String
  correct_answer : String
  explanation : String
  deriving DecidableEq, Repr

/-- The mutable locals of the parsing loop of `_parse_qa_response`. -/
structure ParseAcc where
  question : String
  answer : String
  choices : List String
  correct_answer : String
  explanation : String
  deriving DecidableEq, Repr

def initParseAcc : ParseAcc := ⟨"", "", [], "", ""⟩

/-- One iteration of the line loop of `_parse_qa_response`: strip the line,
skip it if empty, otherwise dispatch on its marker. -/
def parseLine (question_type : String) (acc : ParseAcc) (rawLine : String) : ParseAcc :=
  let line := pyStrip rawLine
  if line = "" then acc
  else if startsWithS line "質問:" || startsWithS line "Q:" then
    { acc with question := afterColon line }
  else if startsWithS line "回答:" || startsWithS line "A:" then
    { acc with answer := afterColon line }
  else if startsWithS line "正解:" then
    { acc with correct_answer := afterColon line }
  else if startsWithS line "解説:" then
    { acc with explanation := afterColon line }
  else if question_type = "multiple_choice" &&
      (startsWithS line "A)" || startsWithS line "B)" ||
       startsWithS line "C)" || startsWithS line "D)") then
    { acc with choices := acc.choices ++ [line] }
  else acc

/-- The line loop of `_parse_qa_response` over all lines. -/
def parseLines (question_type : String) (lines : List String) : ParseAcc :=
  lines.foldl (parseLine question_type) initParseAcc

/-- Python `"\n".join(l)`. -/
def joinNl : List String → String
  | [] => ""
  | [x] => x
  | x :: xs => x ++ "\n" ++ joinNl xs

/-- The composite answer blob for a multiple-choice item with a non-empty
choice list (`_parse_qa_response`, the `full_answer` construction): choice
lines joined by newlines, then the correct-choice line, then the explanation
line. -/
def composeAnswer (choices : List String) (correct_answer explanation : String) : String :=
  joinNl choices
    ++ (if correct_answer ≠ "" then "\n\n正解: " ++ correct_answer else "")
    ++ (if explanation ≠ "" then "\n解説: " ++ explanation else "")

/-- `QAGenerator._parse_qa_response`.  Total: the Python body can only raise
on untypable input, so the `except` branch returning `None` is unreachable
and is not modelled. -/
def parse_qa_response (response difficulty question_type : String) : ParsedQA :=
  let acc := parseLines question_type (splitLinesS (pyStrip response))
  let answer :=
    if question_type = "multiple_choice" && !acc.choices.isEmpty then
      composeAnswer acc.choices acc.correct_answer acc.explanation
    else if acc.answer = "" then "回答が見つかりませんでした。"
    else acc.answer
  if acc.question ≠ "" then
    { question := acc.question, answer := answer, difficulty := difficulty,
      question_type := question_type, choices := acc.choices,
      correct_answer := acc.correct_answer, explanation := acc.explanation }
  else
    { question :=
        if response.length > 200 then ⟨(pyStripChars response.data).take 200⟩ ++ "..."
        else pyStrip response,
      answer := "この質問については講義資料を参照してください。",
      difficulty := difficulty, question_type := question_type,
      choices := acc.choices, correct_answer := acc.correct_answer,
      explanation := acc.explanation }

/-! ## AnswerGrader — `submit_answer` and `_simple_answer_check` (src/api/main.py) -/

/-- After a matched `正解:` marker: regex `\s*([A-D])`, i.e. skip whitespace
greedily and capture a single letter A–D. -/
def wsThenLetter : List Char → Option Char
  | [] => none
  | c :: cs =>
    if isPySpace c then wsThenLetter cs
    else if c = 'A' || c = 'B' || c = 'C' || c = 'D' then some c
    else none

/-- The pattern `正解:` of the grading regex, as characters. -/
def correctMarker : List Char := ['正', '解', ':']

/-- Try the regex `正解:\s*([A-D])` anchored at the start of `l`. -/
def matchCorrectAt (l : List Char) : Option Char :=
  if startsWithChars correctMarker l then wsThenLetter (l.drop 3) else none

/-- `re.search(r'正解:\s*([A-D])', blob)`: leftmost match, scanning position
by position.  (The only backtracking point, `\s*`, cannot trade characters
with `[A-D]` since no whitespace character is a letter, so the greedy scan
below is exactly the regex semantics.) -/
def findCorrectChars : List Char → Option Char
  | [] => none
  | c :: cs =>
    match matchCorrectAt (c :: cs) with
    | some letter => some letter
    | none => findCorrectChars cs

/-- The correct-choice letter recovered from a stored answer blob. -/
def findCorrectS (blob : String) : Option Char := findCorrectChars blob.data

/-- `occursIn p l`: `p` occurs contiguously somewhere in `l`.  Used to state
the marker-freedom side condition of the round-trip theorem. -/
def occursIn (p : List Char) : List Char → Bool
  | [] => startsWithChars p []
  | c :: cs => startsWithChars p (c :: cs) || occursIn p cs

/-- `_simple_answer_check(correct_answer, student_answer)`: whitespace
tokenization into sets, then a ≥ 0.5 overlap ratio over the stored set.  The
Python float division is modelled by exact rational arithmetic, which agrees
with IEEE double comparison against 0.5 for all set sizes below 2^53. -/
def simple_answer_check (correct_answer student_answer : String) : Bool :=
  let correct_keywords : Finset String := (pySplitWs correct_answer).toFinset
  let student_keywords : Finset String := (pySplitWs student_answer).toFinset
  if correct_keywords.card = 0 then
    decide (student_keywords.card = 0)
  else
    decide ((((correct_keywords ∩ student_keywords).card : ℚ) / (correct_keywords.card : ℚ)) ≥ 1/2)

/-- The grading branch of `submit_answer` (src/api/main.py, lines 399–413):
multiple choice compares the recovered correct letter with
`request.answer.upper().strip()`, falling back to `_simple_answer_check` on
the lowercased/stripped texts when no letter is recoverable; every other
question type goes directly to `_simple_answer_check`. -/
def submit_answer_check (question_type stored_answer submitted : String) : Bool :=
  if question_type = "multiple_choice" then
    match findCorrectS stored_answer with
    | some c => pyStrip (pyUpper submitted) == ⟨[c]⟩
    | none => simple_answer_check (pyStrip (pyLower stored_answer)) (pyStrip (pyLower submitted))
  else
    simple_answer_check (pyStrip (pyLower stored_answer)) (pyStrip (pyLower submitted))

/-! ## GenerationEngine — `QAGenerator.generate_qa` -/

/-- The dedup key of `generate_qa`:
`qa_pair["question"][:30].strip().lower().replace(" ", "").replace("　", "")`. -/
def dedupKey (question : String) : String :=
  ⟨(((pyStripChars (question.data.take 30)).map Char.toLower).filter (· ≠ ' ')).filter (· ≠ '　')⟩

/-- The mutable locals of the while loop of `generate_qa`:
`generated_qas`, `generated_questions` (a set, modelled as a list used only
through membership) and `attempts`. -/
structure GenState where
  generated : List ParsedQA
  seen : List String
  attempts : Nat
  deriving Repr

def initGenState : GenState := ⟨[], [], 0⟩

/-- `max_attempts = min(num_questions * 2, 10)`. -/
def maxAttempts (num_questions : Nat) : Nat := min (num_questions * 2) 10

/-- Environment of one `generate_qa` call.  `attemptResult n` is the outcome
of the model invocation of attempt number `n` (1-based, the value of
`attempts` after its increment): `.error` models an exception anywhere in the
attempt body (caught by the inner `except`), `.ok text` the reply text.
`elapsed a` is `time.time() - start_time` (in seconds) observed at the top of
the iteration entered with `attempts = a`. -/
structure GenEnv where
  indexExists : Bool
  loadOk : Bool
  attemptResult : Nat → Except Unit String
  elapsed : Nat → Nat

/-- The body of one iteration of the while loop of `generate_qa`, after the
timeout check: increment `attempts`, select the question type by the accepted
count (an empty `question_types` list raises `ZeroDivisionError`, caught by
the inner `except`, modelled by the `isEmpty` branch), invoke the model,
parse, and accept the item unless the dedup check rejects it. -/
def attempt_step (difficulty : String) (question_types : List String)
    (outcome : Except Unit String) (st : GenState) : GenState :=
  let st1 : GenState := { st with attempts := st.attempts + 1 }
  if question_types.isEmpty then st1
  else
    match outcome with
    | .error _ => st1
    | .ok text =>
      let question_type := question_types.getD (st1.generated.length % question_types.length) ""
      let qa_pair := parse_qa_response text difficulty question_type
      if qa_pair.question ≠ "" then
        let question_key := dedupKey qa_pair.question
        if question_key ∉ st1.seen ∧ question_key.length > 5 then
          { st1 with
            generated := st1.generated ++ [{ qa_pair with question_type := question_type }],
            seen := question_key :: st1.seen }
        else st1
      else st1

/-- The while loop of `generate_qa`.  `fuel` only bounds the recursion; it is
instantiated with `maxAttempts num_questions`, which the guard
`attempts < maxAttempts` makes exact since every iteration increments
`attempts` by one. -/
def genLoop (env : GenEnv) (difficulty : String) (question_types : List String)
    (num_questions : Nat) : Nat → GenState → GenState
  | 0, st => st
  | fuel + 1, st =>
    if st.generated.length < num_questions ∧ st.attempts < maxAttempts num_questions then
      if env.elapsed st.attempts > 120 then st
      else
        genLoop env difficulty question_types num_questions fuel
          (attempt_step difficulty question_types (env.attemptResult (st.attempts + 1)) st)
    else st

/-- The final loop state of a `generate_qa` call that reached the loop. -/
def generate_qa_state (env : GenEnv) (difficulty : String) (question_types : List String)
    (num_questions : Nat) : GenState :=
  genLoop env difficulty question_types num_questions (maxAttempts num_questions) initGenState

/-- The body of `generate_qa` inside the outer `try`: missing index returns
`[]` normally; a failing `FAISS.load_local` raises (here `.error`); otherwise
the loop result is returned. -/
def generate_qa_body (env : GenEnv) (difficulty : String) (question_types : List String)
    (num_questions : Nat) : Except Unit (List ParsedQA) :=
  if env.indexExists = false then .ok []
  else if env.loadOk = false then .error ()
  else .ok (generate_qa_state env difficulty question_types num_questions).generated

/-- `QAGenerator.generate_qa`: the default question-type list, then the body
under the outer `except Exception` handler, which turns any escaped exception
into a normal `[]` return.  The `Except` codomain records that the translated
body may raise; the theorems show the published call never does. -/
def generate_qa (env : GenEnv) (difficulty : String)
    (question_types : Option (List String)) (num_questions : Nat) :
    Except Unit (List ParsedQA) :=
  match generate_qa_body env difficulty
      (question_types.getD ["multiple_choice", "short_answer"]) num_questions with
  | .ok l => .ok l
  | .error _ => .ok []

/-! ## DocumentExtractor — `_read_pdf` / `_read_pdf_with_ocr` -/

/-- Environment of one PDF extraction: `directPages` is the list of per-page
results of `page.extract_text()` (`none` models a `PyPDF2` exception),
`ocrPages` the per-page OCR results (`none` models an OCR exception,
e.g. Tesseract missing). -/
structure PdfEnv where
  directPages : Option (List String)
  ocrPages : Option (List String)

/-- The page accumulation `text += page_text + "\n"` of both readers. -/
def joinPages (pages : List String) : String :=
  pages.foldl (fun text page => text ++ page ++ "\n") ""

/-- `QAGenerator._read_pdf_with_ocr`: concatenate per-page OCR output and
succeed only above the 50-character gate (length measured after stripping);
any exception yields `""`. -/
def read_pdf_with_ocr (env : PdfEnv) : String :=
  match env.ocrPages with
  | none => ""
  | some pages =>
    let text := joinPages pages
    if (pyStrip text).length > 50 then text else ""

/-- `QAGenerator._read_pdf`: direct text-layer extraction, returned verbatim
above the 100-character gate (length measured after stripping), otherwise the
OCR fallback; a `PyPDF2` exception also falls back to OCR. -/
def read_pdf (env : PdfEnv) : String :=
  match env.directPages with
  | none => read_pdf_with_ocr env
  | some pages =>
    let text := joinPages pages
    if (pyStrip text).length > 100 then text else read_pdf_with_ocr env

/-! ## Ingestion — `QAGenerator.process_document` -/

/-- Exceptions that can cross the steps of `process_document`; the embedding
backend being unreachable surfaces as `embeddingServiceError` out of
`FAISS.from_documents`. -/
inductive IngestExc
  | embeddingServiceError
  | otherError
  deriving DecidableEq, Repr

/-- Environment of one `process_document` call: the text returned by
`_read_file` (already `""` on read errors), and the outcomes of the embedding
(`FAISS.from_documents`) and index-saving steps. -/
structure IngestEnv where
  content : String
  embedOutcome : Except IngestExc Unit
  saveOutcome : Except IngestExc Unit

/-- The body of `process_document` inside the `try`: empty content returns
`False`, then embedding and saving run in order, each able to raise. -/
def process_document_body (env : IngestEnv) : Except IngestExc Bool :=
  if env.content = "" then .ok false
  else
    match env.embedOutcome with
    | .error e => .error e
    | .ok _ =>
      match env.saveOutcome with
      | .error e => .error e
      | .ok _ => .ok true

/-- `QAGenerator.process_document`: the body under `except Exception`, which
absorbs every exception into a normal `False` return. -/
def process_document (env : IngestEnv) : Bool :=
  match process_document_body env with
  | .ok b => b
  | .error _ => false

/-! ## Theorems -/

/-- **C8**: PDF extraction is a two-tier gate: a direct text-layer extraction
of more than 100 characters (after trimming) is returned verbatim; at most
100 characters falls back to per-page OCR; and an OCR result of at most 50
characters (after trimming) makes extraction fail for the document, i.e.
return `""`, which `_read_file`/`process_document` treat as failure. -/
theorem C8_pdf_two_tier_gate (env : PdfEnv) (pages : List String)
    (hd : env.directPages = some pages) :
    ((pyStrip (joinPages pages)).length > 100 → read_pdf env = joinPages pages)
    ∧ ((pyStrip (joinPages pages)).length ≤ 100 → read_pdf env = read_pdf_with_ocr env)
    ∧ (∀ ocr, env.ocrPages = some ocr → (pyStrip (joinPages ocr)).length ≤ 50 →
        read_pdf_with_ocr env = "") := by
  refine ⟨fun h => ?_, fun h => ?_, fun ocr ho h => ?_⟩
  · simp only [read_pdf, hd]
    rw [if_pos h]
  · simp only [read_pdf, hd]
    rw [if_neg (by omega)]
  · simp only [read_pdf_with_ocr, ho]
    rw [if_neg (by omega)]

/-- Concrete instance of `C8_pdf_two_tier_gate`: a 3-character text layer
falls back to OCR, and a 2-character OCR result makes extraction fail. -/
theorem C8_pdf_two_tier_gate_witness :
    read_pdf ⟨some ["abc"], some ["xy"]⟩ = read_pdf_with_ocr ⟨some ["abc"], some ["xy"]⟩
    ∧ read_pdf_with_ocr ⟨some ["abc"], some ["xy"]⟩ = "" :=
  ⟨(C8_pdf_two_tier_gate ⟨some ["abc"], some ["xy"]⟩ ["abc"] rfl).2.1 (by decide),
   (C8_pdf_two_tier_gate ⟨some ["abc"], some ["xy"]⟩ ["abc"] rfl).2.2 ["xy"] rfl (by decide)⟩

/-- **C9 counterexample**: the claim says an `EmbeddingServiceError` during
ingestion is propagated to the caller.  In the code, `process_document` wraps
its whole body in `except Exception: return False`: with non-empty content
and an embedding-backend failure, the body raises the error but the call
returns the normal value `False` — nothing propagates. -/
theorem C9_counterexample :
    process_document_body ⟨"content", .error .embeddingServiceError, .ok ()⟩
      = .error .embeddingServiceError
    ∧ process_document ⟨"content", .error .embeddingServiceError, .ok ()⟩ = false :=
  ⟨rfl, rfl⟩

/-- **C9 amended**: when the embedding backend is unreachable during
ingestion (and the document was readable), `process_document` neither retries
nor propagates the failure: the exception is absorbed by the handler and the
call returns `False`. -/
theorem C9_embedding_error_absorbed (env : IngestEnv) (e : IngestExc)
    (hc : env.content ≠ "") (he : env.embedOutcome = .error e) :
    process_document env = false := by
  unfold process_document process_document_body
  rw [if_neg hc, he]

/-- Concrete instance of `C9_embedding_error_absorbed`. -/
theorem C9_embedding_error_absorbed_witness :
    process_document ⟨"content", .error .embeddingServiceError, .ok ()⟩ = false :=
  C9_embedding_error_absorbed ⟨"content", .error .embeddingServiceError, .ok ()⟩
    .embeddingServiceError (by decide) rfl

/-- **C2**: `generate_qa` never propagates an exception: in every environment
(missing index, failing index load, any sequence of model failures) the call
returns a normal list — `Except.ok` — and when no index exists for the
document identifier the result is the empty list, a normal value rather than
a crash.  A run that accepts fewer items than requested takes the same
`.ok` path, so under-delivery is a success with a smaller list. -/
theorem C2_generate_qa_total (env : GenEnv) (difficulty : String)
    (question_types : Option (List String)) (num_questions : Nat) :
    (∃ l, generate_qa env difficulty question_types num_questions = .ok l)
    ∧ (env.indexExists = false →
        generate_qa env difficulty question_types num_questions = .ok []) := by
  constructor
  · rcases h : generate_qa_body env difficulty
        (question_types.getD ["multiple_choice", "short_answer"]) num_questions with e | l
    · exact ⟨[], by simp [generate_qa, h]⟩
    · exact ⟨l, by simp [generate_qa, h]⟩
  · intro h
    unfold generate_qa generate_qa_body
    rw [h]
    rfl

/-- Concrete instance of `C2_generate_qa_total`: with no index present the
call returns `.ok []`. -/
theorem C2_generate_qa_total_witness :
    generate_qa ⟨false, true, fun _ => .error (), fun _ => 0⟩ "easy" none 5 = .ok [] :=
  (C2_generate_qa_total ⟨false, true, fun _ => .error (), fun _ => 0⟩ "easy" none 5).2 rfl

/-- Every branch of an attempt increments `attempts` by exactly one. -/
theorem attempt_step_attempts (difficulty : String) (question_types : List String)
    (outcome : Except Unit String) (st : GenState) :
    (attempt_step difficulty question_types outcome st).attempts = st.attempts + 1 := by
  unfold attempt_step
  rcases outcome with e | text <;> simp only []
  · split <;> rfl
  · split
    · rfl
    · split
      · split
        · rfl
        · rfl
      · rfl

/-- The loop guard keeps `attempts` at or below `maxAttempts`. -/
theorem genLoop_attempts_le (env : GenEnv) (difficulty : String)
    (question_types : List String) (num_questions : Nat) :
    ∀ (fuel : Nat) (st : GenState), st.attempts ≤ maxAttempts num_questions →
      (genLoop env difficulty question_types num_questions fuel st).attempts
        ≤ maxAttempts num_questions := by
  intro fuel
  induction fuel with
  | zero => intro st h; exact h
  | succ fuel ih =>
    intro st h
    unfold genLoop
    split
    · split
      · exact h
      · rename_i hguard _
        exact ih _ (by rw [attempt_step_attempts]; omega)
    · exact h

/-- **C7**: the generation loop performs at most `min(num_questions * 2, 10)`
attempts, and the elapsed wall-clock time is checked against the 120-second
budget at the top of every iteration: whenever the elapsed time observed
there exceeds the budget, the loop returns the accumulated state unchanged,
so the call returns the items gathered so far and never blocks past the
budget plus the one model call already in flight. -/
theorem C7_attempts_and_timeout (env : GenEnv) (difficulty : String)
    (question_types : List String) (num_questions : Nat) :
    (generate_qa_state env difficulty question_types num_questions).attempts
      ≤ min (num_questions * 2) 10
    ∧ (∀ (st : GenState) (fuel : Nat), env.elapsed st.attempts > 120 →
        genLoop env difficulty question_types num_questions fuel st = st) := by
  constructor
  · exact genLoop_attempts_le env difficulty question_types num_questions _ _ (Nat.zero_le _)
  · intro st fuel h
    cases fuel with
    | zero => rfl
    | succ fuel =>
      unfold genLoop
      split
      · rfl
      · rfl

/-- Concrete instance of `C7_attempts_and_timeout`: a loop entered with the
budget already exceeded returns its state unchanged. -/
theorem C7_attempts_and_timeout_witness :
    genLoop ⟨true, true, fun _ => .error (), fun _ => 121⟩ "easy" ["short_answer"] 3 6
      initGenState = initGenState :=
  (C7_attempts_and_timeout ⟨true, true, fun _ => .error (), fun _ => 121⟩ "easy"
    ["short_answer"] 3).2 initGenState 6 (by decide)

/-- **C4**: for `short_answer` and `essay` items, grading lowercases and
strips both texts, tokenizes them into whitespace-delimited keyword sets, and
accepts exactly when the overlap ratio `|intersection| / |stored set|` is at
least 0.5 — with the degenerate cases: an empty stored set matches exactly an
empty submission set. -/
theorem C4_keyword_grading (question_type stored submitted : String)
    (hqt : question_type = "short_answer" ∨ question_type = "essay") :
    (submit_answer_check question_type stored submitted = true ↔
      (if ((pySplitWs (pyStrip (pyLower stored))).toFinset : Finset String) = ∅ then
        ((pySplitWs (pyStrip (pyLower submitted))).toFinset : Finset String) = ∅
      else
        ((((pySplitWs (pyStrip (pyLower stored))).toFinset ∩
            (pySplitWs (pyStrip (pyLower submitted))).toFinset).card : ℚ) /
          ((pySplitWs (pyStrip (pyLower stored))).toFinset.card : ℚ) ≥ 1/2))) := by
  have hne : question_type ≠ "multiple_choice" := by
    rcases hqt with h | h <;> subst h <;> decide
  unfold submit_answer_check
  rw [if_neg hne]
  unfold simple_answer_check
  by_cases hz : ((pySplitWs (pyStrip (pyLower stored))).toFinset : Finset String).card = 0
  · rw [if_pos hz, if_pos (Finset.card_eq_zero.mp hz)]
    simp [Finset.card_eq_zero]
  · rw [if_neg hz, if_neg (fun h => hz (by rw [h]; rfl))]
    simp

/-- Concrete instance of `C4_keyword_grading`: three of the four stored
keywords appear in the submission (case-insensitively), so the 0.75 ratio
clears the 0.5 threshold. -/
theorem C4_keyword_grading_witness :
    submit_answer_check "short_answer" "The Mitochondria Is powerhouse"
      "mitochondria is POWERHOUSE" = true := by
  apply (C4_keyword_grading "short_answer" "The Mitochondria Is powerhouse"
    "mitochondria is POWERHOUSE" (Or.inl rfl)).mpr
  rw [if_neg (by decide)]
  have h3 : ((pySplitWs (pyStrip (pyLower "The Mitochondria Is powerhouse"))).toFinset ∩
      (pySplitWs (pyStrip (pyLower "mitochondria is POWERHOUSE"))).toFinset).card = 3 := by decide
  have h4 : (pySplitWs (pyStrip (pyLower "The Mitochondria Is powerhouse"))).toFinset.card = 4 := by
    decide
  rw [h3, h4]
  norm_num

/-- **C3 counterexample**: the claim says grading normalizes the submission
to a single uppercase letter "accepting either a bare letter or a
`letter) text` form".  The code compares `request.answer.upper().strip()`
verbatim with the recovered letter, so the `letter) text` form of the stored
correct choice grades as incorrect even though the bare letter grades as
correct. -/
theorem C3_counterexample :
    findCorrectS "A) 東京\nB) 大阪\nC) 京都\nD) 名古屋\n\n正解: A\n解説: x" = some 'A'
    ∧ submit_answer_check "multiple_choice"
        "A) 東京\nB) 大阪\nC) 京都\nD) 名古屋\n\n正解: A\n解説: x" "A) 東京" = false
    ∧ submit_answer_check "multiple_choice"
        "A) 東京\nB) 大阪\nC) 京都\nD) 名古屋\n\n正解: A\n解説: x" "A" = true :=
  ⟨by decide, by decide, by decide⟩

/-- The letter captured after a `正解:` marker is one of A–D. -/
theorem wsThenLetter_mem (l : List Char) (c : Char) (h : wsThenLetter l = some c) :
    c = 'A' ∨ c = 'B' ∨ c = 'C' ∨ c = 'D' := by
  induction l with
  | nil => simp [wsThenLetter] at h
  | cons x xs ih =>
    unfold wsThenLetter at h
    split at h
    · exact ih h
    · split at h
      · rename_i hx
        injection h with h'
        subst h'
        simp only [Bool.or_eq_true, decide_eq_true_eq] at hx
        tauto
      · exact absurd h (by simp)

/-- The letter recovered by the grading regex is one of A–D. -/
theorem findCorrectChars_mem (l : List Char) (c : Char) (h : findCorrectChars l = some c) :
    c = 'A' ∨ c = 'B' ∨ c = 'C' ∨ c = 'D' := by
  induction l with
  | nil => simp [findCorrectChars] at h
  | cons x xs ih =>
    unfold findCorrectChars at h
    rcases hm : matchCorrectAt (x :: xs) with _ | letter
    · rw [hm] at h
      exact ih h
    · rw [hm] at h
      injection h with h'
      subst h'
      unfold matchCorrectAt at hm
      split at hm
      · exact wsThenLetter_mem _ _ hm
      · simp at hm

/-- **C3 amended**: for a `multiple_choice` item whose stored blob yields a
correct letter `c` via the `正解:` marker, grading uppercases and strips the
whole submission and accepts exactly when that equals the bare letter: the
stored correct letter grades correct, any other valid letter grades
incorrect, and a `letter) text` submission is *not* reduced to its letter
(it grades incorrect, see the counterexample).  Without a recoverable
marker, grading falls back to the keyword-overlap policy. -/
theorem C3_mc_grading (stored submitted : String) (c : Char)
    (h : findCorrectS stored = some c) :
    (submit_answer_check "multiple_choice" stored submitted = true ↔
        pyStrip (pyUpper submitted) = (⟨[c]⟩ : String))
    ∧ submit_answer_check "multiple_choice" stored ⟨[c]⟩ = true
    ∧ (∀ c', (c' = 'A' ∨ c' = 'B' ∨ c' = 'C' ∨ c' = 'D') → c' ≠ c →
        submit_answer_check "multiple_choice" stored ⟨[c']⟩ = false)
    ∧ (∀ blob sub, findCorrectS blob = none →
        submit_answer_check "multiple_choice" blob sub =
          simple_answer_check (pyStrip (pyLower blob)) (pyStrip (pyLower sub))) := by
  have hc := findCorrectChars_mem stored.data c h
  have hmain : ∀ sub, submit_answer_check "multiple_choice" stored sub =
      (pyStrip (pyUpper sub) == (⟨[c]⟩ : String)) := by
    intro sub
    unfold submit_answer_check
    rw [if_pos rfl, h]
  refine ⟨?_, ?_, ?_, ?_⟩
  · rw [hmain]
    exact beq_iff_eq
  · rw [hmain]
    rcases hc with h' | h' | h' | h' <;> subst h' <;> decide
  · intro c' hc' hne
    rw [hmain]
    have h1 : pyStrip (pyUpper (⟨[c']⟩ : String)) = (⟨[c']⟩ : String) := by
      rcases hc' with h' | h' | h' | h' <;> subst h' <;> decide
    rw [h1]
    have hz : ¬ ((⟨[c']⟩ : String) = (⟨[c]⟩ : String)) := by
      intro heq
      apply hne
      have h2 : [c'] = [c] := congrArg String.data heq
      simp only [List.cons.injEq, and_true] at h2
      exact h2
    rw [beq_eq_false_iff_ne]
    exact hz
  · intro blob sub hnone
    unfold submit_answer_check
    rw [if_pos rfl, hnone]

/-- Concrete instance of `C3_mc_grading`: submitting the bare stored letter
grades correct, submitting another valid letter grades incorrect. -/
theorem C3_mc_grading_witness :
    submit_answer_check "multiple_choice" "A) ア\nB) イ\n\n正解: B\n解説: y"
      (⟨['B']⟩ : String) = true
    ∧ submit_answer_check "multiple_choice" "A) ア\nB) イ\n\n正解: B\n解説: y"
      (⟨['C']⟩ : String) = false :=
  ⟨(C3_mc_grading "A) ア\nB) イ\n\n正解: B\n解説: y" "x" 'B' (by decide)).2.1,
   (C3_mc_grading "A) ア\nB) イ\n\n正解: B\n解説: y" "x" 'B' (by decide)).2.2.1 'C'
     (by decide) (by decide)⟩

/-- An attempt either leaves the accepted list unchanged or appends exactly
one item, whose `question_type` is the one selected by the accepted count. -/
theorem attempt_step_generated (difficulty : String) (question_types : List String)
    (outcome : Except Unit String) (st : GenState) :
    (attempt_step difficulty question_types outcome st).generated = st.generated ∨
    (question_types ≠ [] ∧ ∃ pair : ParsedQA,
      pair.question_type
        = question_types.getD (st.generated.length % question_types.length) "" ∧
      (attempt_step difficulty question_types outcome st).generated
        = st.generated ++ [pair]) := by
  rcases outcome with e | text
  · unfold attempt_step
    left
    split <;> rfl
  · simp only [attempt_step]
    split
    · left; rfl
    · rename_i hne
      split
      · split
        · right
          refine ⟨?_, ?_⟩
          · intro hnil
            subst hnil
            simp at hne
          · exact ⟨_, rfl, rfl⟩
        · left; rfl
      · left; rfl

/-- The loop never accumulates more than `num_questions` items. -/
theorem genLoop_length_le (env : GenEnv) (difficulty : String)
    (question_types : List String) (num_questions : Nat) :
    ∀ (fuel : Nat) (st : GenState), st.generated.length ≤ num_questions →
      ((genLoop env difficulty question_types num_questions fuel st).generated).length
        ≤ num_questions := by
  intro fuel
  induction fuel with
  | zero => intro st h; exact h
  | succ fuel ih =>
    intro st h
    unfold genLoop
    split
    · rename_i hguard
      split
      · exact h
      · apply ih
        rcases attempt_step_generated difficulty question_types
            (env.attemptResult (st.attempts + 1)) st with heq | ⟨_, pair, _, heq⟩
        · rw [heq]; exact h
        · rw [heq]
          simp only [List.length_append, List.length_cons, List.length_nil]
          omega
    · exact h

/-- Every accepted item's `question_type` is drawn from the requested list. -/
theorem genLoop_types_mem (env : GenEnv) (difficulty : String)
    (question_types : List String) (num_questions : Nat) :
    ∀ (fuel : Nat) (st : GenState),
      (∀ it ∈ st.generated, it.question_type ∈ question_types) →
      ∀ it ∈ (genLoop env difficulty question_types num_questions fuel st).generated,
        it.question_type ∈ question_types := by
  intro fuel
  induction fuel with
  | zero => intro st h; exact h
  | succ fuel ih =>
    intro st h
    unfold genLoop
    split
    · split
      · exact h
      · apply ih
        rcases attempt_step_generated difficulty question_types
            (env.attemptResult (st.attempts + 1)) st with heq | ⟨hq, pair, htype, heq⟩
        · rw [heq]; exact h
        · rw [heq]
          intro it hit
          rcases List.mem_append.mp hit with hmem | hmem
          · exact h it hmem
          · have : it = pair := by simpa using hmem
            subst this
            rw [htype]
            have hlt : st.generated.length % question_types.length < question_types.length :=
              Nat.mod_lt _ (List.length_pos.mpr hq)
            rw [List.getD_eq_getElem _ _ hlt]
            exact List.getElem_mem hlt
    · exact h

/-- The accepted items' types, in order, follow the rotation indexed by the
accepted count. -/
theorem genLoop_types_pos (env : GenEnv) (difficulty : String)
    (question_types : List String) (num_questions : Nat) :
    ∀ (fuel : Nat) (st : GenState),
      (st.generated.map (fun it => it.question_type)
        = (List.range st.generated.length).map
            (fun k => question_types.getD (k % question_types.length) "")) →
      ((genLoop env difficulty question_types num_questions fuel st).generated.map
          (fun it => it.question_type)
        = (List.range
            (genLoop env difficulty question_types num_questions fuel st).generated.length).map
            (fun k => question_types.getD (k % question_types.length) "")) := by
  intro fuel
  induction fuel with
  | zero => intro st h; exact h
  | succ fuel ih =>
    intro st h
    unfold genLoop
    split
    · split
      · exact h
      · apply ih
        rcases attempt_step_generated difficulty question_types
            (env.attemptResult (st.attempts + 1)) st with heq | ⟨_, pair, htype, heq⟩
        · rw [heq]; exact h
        · rw [heq]
          simp only [List.map_append, List.length_append, List.length_cons, List.length_nil,
            List.map_cons, List.map_nil]
          rw [h, show st.generated.length + (0 + 1) = st.generated.length + 1 by omega,
            List.range_succ, List.map_append]
          simp [htype]
    · exact h

/-- **C6**: the question type of each accepted item is
`question_types[accepted_count % len(question_types)]`: the item at position
`i` of the returned list was produced with type `question_types[i % len]`,
so the rotation pointer is indexed by the count of items already accepted and
a rejected or failed attempt does not advance it. -/
theorem C6_rotation_by_accepted_count (env : GenEnv) (difficulty : String)
    (question_types : List String) (num_questions : Nat) (hq : question_types ≠ [])
    (i : Nat)
    (hi : i < (generate_qa_state env difficulty question_types num_questions).generated.length) :
    ((generate_qa_state env difficulty question_types num_questions).generated.get
        ⟨i, hi⟩).question_type
      = question_types.get
          ⟨i % question_types.length, Nat.mod_lt i (List.length_pos.mpr hq)⟩ := by
  unfold generate_qa_state at hi ⊢
  have hinv := genLoop_types_pos env difficulty question_types num_questions
    (maxAttempts num_questions) initGenState rfl
  have h1 : (((genLoop env difficulty question_types num_questions
        (maxAttempts num_questions) initGenState).generated).map
      (fun it => it.question_type))[i]?
      = ((List.range
          ((genLoop env difficulty question_types num_questions
            (maxAttempts num_questions) initGenState).generated).length).map
          (fun k => question_types.getD (k % question_types.length) ""))[i]? := by
    rw [hinv]
  rw [List.getElem?_map, List.getElem?_map, List.getElem?_range hi,
    List.getElem?_eq_getElem hi] at h1
  simp only [Option.map_some'] at h1
  injection h1 with h2
  have hlt : i % question_types.length < question_types.length :=
    Nat.mod_lt i (List.length_pos.mpr hq)
  rw [List.getD_eq_getElem _ _ hlt] at h2
  simpa using h2

/-- Concrete instance of `C6_rotation_by_accepted_count`: with two requested
types and two accepted items, the items carry the types at rotation indices
0 and 1. -/
theorem C6_rotation_by_accepted_count_witness :
    ((generate_qa_state
        ⟨true, true,
          fun n => .ok (if n % 2 = 1 then "質問: 一番目のながいしつもんです\n回答: x"
                        else "質問: 二番目のながいしつもんです\n回答: y"),
          fun _ => 0⟩
        "easy" ["multiple_choice", "short_answer"] 2).generated.get
      ⟨1, by decide⟩).question_type = "short_answer" := by
  have h := C6_rotation_by_accepted_count
    ⟨true, true,
      fun n => .ok (if n % 2 = 1 then "質問: 一番目のながいしつもんです\n回答: x"
                    else "質問: 二番目のながいしつもんです\n回答: y"),
      fun _ => 0⟩
    "easy" ["multiple_choice", "short_answer"] 2 (by decide) 1 (by decide)
  exact h

/-- **C10**: a normal `generate_qa` result contains at most `num_questions`
items, and every returned item's `question_type` is an element of the
requested `question_types` list (defaulted to
`["multiple_choice", "short_answer"]` when the caller passes none). -/
theorem C10_result_invariants (env : GenEnv) (difficulty : String)
    (question_types : Option (List String)) (num_questions : Nat)
    (l : List ParsedQA)
    (h : generate_qa env difficulty question_types num_questions = .ok l) :
    l.length ≤ num_questions
    ∧ ∀ it ∈ l, it.question_type ∈ question_types.getD ["multiple_choice", "short_answer"] := by
  rcases hb : generate_qa_body env difficulty
      (question_types.getD ["multiple_choice", "short_answer"]) num_questions with e | l'
  · unfold generate_qa at h
    rw [hb] at h
    injection h with h'
    subst h'
    exact ⟨Nat.zero_le _, by simp⟩
  · unfold generate_qa at h
    rw [hb] at h
    injection h with h'
    subst h'
    unfold generate_qa_body at hb
    split at hb
    · injection hb with h2
      subst h2
      exact ⟨Nat.zero_le _, by simp⟩
    · split at hb
      · exact absurd hb (by simp)
      · injection hb with h2
        subst h2
        constructor
        · exact genLoop_length_le env difficulty _ num_questions _ _ (Nat.zero_le _)
        · exact genLoop_types_mem env difficulty _ num_questions _ _
            (by intro it hit; simp [initGenState] at hit)

/-- Concrete instance of `C10_result_invariants`: a one-item result respects
the bound and its type comes from the defaulted list. -/
theorem C10_result_invariants_witness :
    ([(⟨"これは長い質問ですか", "はい", "easy", "multiple_choice", [], "", ""⟩ : ParsedQA)].length ≤ 1)
    ∧ ∀ it ∈ [(⟨"これは長い質問ですか", "はい", "easy", "multiple_choice", [], "", ""⟩ : ParsedQA)],
        it.question_type ∈ (none : Option (List String)).getD ["multiple_choice", "short_answer"] :=
  C10_result_invariants
    ⟨true, true, fun _ => .ok "質問: これは長い質問ですか\n回答: はい", fun _ => 0⟩
    "easy" none 1
    [⟨"これは長い質問ですか", "はい", "easy", "multiple_choice", [], "", ""⟩] rfl

/-- **C1 counterexample**: the claim says an item whose dedup key has length
at most 5 is accepted even when repeated.  In the code the accept condition
is `key not in seen AND len(key) > 5`, so a short-key item is always
rejected: a parsed question `"a b c"` (key `"abc"`, length 3) is produced on
every attempt, yet the call returns the empty list instead of accepting it. -/
theorem C1_counterexample :
    (parse_qa_response "質問: a b c\n回答: x" "easy" "short_answer").question = "a b c"
    ∧ (dedupKey "a b c").length ≤ 5
    ∧ generate_qa ⟨true, true, fun _ => .ok "質問: a b c\n回答: x", fun _ => 0⟩ "easy"
        (some ["short_answer"]) 1 = .ok [] :=
  ⟨rfl, by decide, rfl⟩

/-- **C1 amended**: a parsed item with a non-empty question is accepted
exactly when its dedup key is new *and* the key's normalized length exceeds
5; otherwise — key already accepted, or key length at most 5 — the item is
rejected.  In particular short-key items are always rejected, never
accepted. -/
theorem C1_short_keys_rejected (difficulty text : String) (question_types : List String)
    (st : GenState) (qt : String)
    (hq : question_types.isEmpty = false)
    (hqt : qt = question_types.getD (st.generated.length % question_types.length) "")
    (pair : ParsedQA) (hpair : pair = parse_qa_response text difficulty qt)
    (hquestion : pair.question ≠ "") :
    (attempt_step difficulty question_types (.ok text) st).generated =
      if dedupKey pair.question ∉ st.seen ∧ (dedupKey pair.question).length > 5
      then st.generated ++ [{ pair with question_type := qt }]
      else st.generated := by
  subst hqt
  subst hpair
  simp only [attempt_step, hq, Bool.false_eq_true, if_false]
  rw [if_pos hquestion]
  by_cases hcond : dedupKey (parse_qa_response text difficulty
      (question_types.getD (st.generated.length % question_types.length) "")).question ∉ st.seen
      ∧ (dedupKey (parse_qa_response text difficulty
          (question_types.getD (st.generated.length % question_types.length) "")).question).length > 5
  · rw [if_pos hcond, if_pos hcond]
  · rw [if_neg hcond, if_neg hcond]

/-- Concrete instance of `C1_short_keys_rejected`: a fresh long-key item is
accepted (the condition evaluates to acceptance). -/
theorem C1_short_keys_rejected_witness :
    (attempt_step "easy" ["short_answer"]
        (.ok "質問: これは長い質問ですか\n回答: はい") initGenState).generated =
      if dedupKey (parse_qa_response "質問: これは長い質問ですか\n回答: はい" "easy"
            "short_answer").question ∉ initGenState.seen
          ∧ (dedupKey (parse_qa_response "質問: これは長い質問ですか\n回答: はい" "easy"
              "short_answer").question).length > 5
      then initGenState.generated
          ++ [{ parse_qa_response "質問: これは長い質問ですか\n回答: はい" "easy"
                  "short_answer" with question_type := "short_answer" }]
      else initGenState.generated :=
  C1_short_keys_rejected "easy" "質問: これは長い質問ですか\n回答: はい" ["short_answer"]
    initGenState "short_answer" rfl rfl _ rfl (by decide)

/-! ### String lemmas for the round-trip theorem (C5) -/

/-- String concatenation concatenates the character lists. -/
theorem data_append : ∀ (s t : String), (s ++ t).data = s.data ++ t.data
  | ⟨_⟩, ⟨_⟩ => rfl

/-- `head?` of an append with a non-empty left part. -/
theorem head?_append_left (l₁ l₂ : List Char) (h : l₁ ≠ []) :
    (l₁ ++ l₂).head? = l₁.head? := by
  cases l₁ with
  | nil => exact absurd rfl h
  | cons a as => rfl

/-- `getLast?` of an append with a non-empty right part. -/
theorem getLast?_append_right (l₁ l₂ : List Char) (h : l₂ ≠ []) :
    (l₁ ++ l₂).getLast? = l₂.getLast? := by
  rw [← List.head?_reverse, ← List.head?_reverse, List.reverse_append,
    head?_append_left _ _ (by simpa using h)]

/-- Stripping is the identity on a list whose first and last characters are
not whitespace. -/
theorem pyStripChars_noop (l : List Char)
    (h1 : ∀ c, l.head? = some c → isPySpace c = false)
    (h2 : ∀ c, l.getLast? = some c → isPySpace c = false) :
    pyStripChars l = l := by
  cases l with
  | nil => rfl
  | cons a as =>
    unfold pyStripChars
    rw [List.dropWhile_cons, if_neg (by rw [h1 a rfl]; simp)]
    rcases hrev : (a :: as).reverse with _ | ⟨b, t⟩
    · exact absurd (List.reverse_eq_nil_iff.mp hrev) (by simp)
    · have hb : (a :: as).getLast? = some b := by
        rw [← List.head?_reverse, hrev]; rfl
      rw [List.dropWhile_cons, if_neg (by rw [h2 b hb]; simp), ← hrev,
        List.reverse_reverse]

/-- Splitting at the first newline of an append. -/
theorem splitLinesChars_append_nl (a : List Char) (b : List Char) (ha : '\n' ∉ a) :
    splitLinesChars (a ++ '\n' :: b) = a :: splitLinesChars b := by
  induction a with
  | nil =>
    simp only [List.nil_append]
    conv_lhs => unfold splitLinesChars
    rw [if_pos rfl]
  | cons c cs ih =>
    have hc : c ≠ '\n' := fun h => ha (by simp [h])
    simp only [List.cons_append]
    conv_lhs => unfold splitLinesChars
    rw [if_neg hc, ih (fun h => ha (by simp [h]))]

/-- A newline-free list is a single line. -/
theorem splitLinesChars_no_nl (a : List Char) (ha : '\n' ∉ a) :
    splitLinesChars a = [a] := by
  induction a with
  | nil => rfl
  | cons c cs ih =>
    have hc : c ≠ '\n' := fun h => ha (by simp [h])
    conv_lhs => unfold splitLinesChars
    rw [if_neg hc, ih (fun h => ha (by simp [h]))]

/-- Splitting the joined choice lines followed by a newline and a remainder
recovers the choice lines followed by the remainder's lines. -/
theorem splitLinesChars_joinNl (cs : List String) (r : List Char) (hcs : cs ≠ [])
    (hnl : ∀ x ∈ cs, '\n' ∉ x.data) :
    splitLinesChars ((joinNl cs).data ++ '\n' :: r)
      = cs.map String.data ++ splitLinesChars r := by
  induction cs with
  | nil => exact absurd rfl hcs
  | cons x xs ih =>
    cases xs with
    | nil =>
      simp only [joinNl, List.map_cons, List.map_nil]
      rw [splitLinesChars_append_nl _ _ (hnl x (by simp))]
      rfl
    | cons y ys =>
      have hx : '\n' ∉ x.data := hnl x (by simp)
      have hstep : (joinNl (x :: y :: ys)).data
          = x.data ++ '\n' :: (joinNl (y :: ys)).data := by
        show (x ++ "\n" ++ joinNl (y :: ys)).data = _
        rw [data_append, data_append, List.append_assoc]
        rfl
      rw [hstep, List.append_assoc, List.cons_append,
        splitLinesChars_append_nl _ _ hx]
      have := ih (by simp) (fun z hz => hnl z (by simp [hz]))
      simp only [List.cons_append] at this ⊢
      rw [this]
      rfl

/-- A prefix of an append that fits inside the left part is a prefix of the
left part. -/
theorem startsWithChars_append_of_le (p s t : List Char) (hlen : p.length ≤ s.length)
    (h : startsWithChars p (s ++ t) = true) : startsWithChars p s = true := by
  induction p generalizing s with
  | nil => rfl
  | cons q qs ih =>
    cases s with
    | nil => simp at hlen
    | cons x xs =>
      simp only [List.cons_append] at h
      unfold startsWithChars at h ⊢
      simp only [Bool.and_eq_true] at h ⊢
      exact ⟨h.1, ih xs (by simpa using hlen) h.2⟩

/-- A newline-free prefix of `a ++ '\n' :: b` is a prefix of `a`. -/
theorem startsWithChars_through_nl (p a b : List Char) (hp : '\n' ∉ p)
    (h : startsWithChars p (a ++ '\n' :: b) = true) : startsWithChars p a = true := by
  induction p generalizing a with
  | nil => rfl
  | cons q qs ih =>
    cases a with
    | nil =>
      simp only [List.nil_append] at h
      unfold startsWithChars at h
      simp only [Bool.and_eq_true, beq_iff_eq] at h
      exact absurd (h.1 ▸ List.mem_cons_self q qs) (h.1 ▸ hp)
    | cons x xs =>
      simp only [List.cons_append] at h
      unfold startsWithChars at h ⊢
      simp only [Bool.and_eq_true] at h ⊢
      exact ⟨h.1, ih xs (fun hm => hp (by simp [hm])) h.2⟩

/-- A pattern that starts some suffix of `l` occurs in `l`. -/
theorem occursIn_of_suffix (p s l : List Char) (hs : s <:+ l)
    (h : startsWithChars p s = true) : occursIn p l = true := by
  obtain ⟨r, hr⟩ := hs
  subst hr
  induction r with
  | nil =>
    cases s with
    | nil => simpa [occursIn] using h
    | cons x xs => simp [occursIn, h]
  | cons x rs ih =>
    simp only [List.cons_append]
    unfold occursIn
    rw [ih]
    simp

/-- A newline-free pattern occurring in `a ++ '\n' :: b` occurs in `a` or in
`b`. -/
theorem occursIn_append_nl (p a b : List Char) (hp : '\n' ∉ p)
    (h : occursIn p (a ++ '\n' :: b) = true) :
    occursIn p a = true ∨ occursIn p b = true := by
  induction a with
  | nil =>
    simp only [List.nil_append] at h
    unfold occursIn at h
    rcases Bool.or_eq_true_iff.mp h with h1 | h1
    · cases p with
      | nil => left; rfl
      | cons q qs =>
        unfold startsWithChars at h1
        simp only [Bool.and_eq_true, beq_iff_eq] at h1
        exact absurd (h1.1 ▸ List.mem_cons_self q qs) (h1.1 ▸ hp)
    · right; exact h1
  | cons x xs ih =>
    simp only [List.cons_append] at h
    unfold occursIn at h
    rcases Bool.or_eq_true_iff.mp h with h1 | h1
    · left
      have h2 : startsWithChars p (x :: xs) = true := by
        have := startsWithChars_through_nl p (x :: xs) b hp (by simpa using h1)
        exact this
      unfold occursIn
      rw [h2]
      simp
    · rcases ih h1 with h2 | h2
      · left
        unfold occursIn
        rw [h2]
        simp
      · right; exact h2

/-- A non-empty, newline-free pattern absent from every choice line is absent
from their newline-join. -/
theorem occursIn_joinNl (p : List Char) (cs : List String) (hp0 : p ≠ [])
    (hp : '\n' ∉ p) (h : ∀ x ∈ cs, occursIn p x.data = false) :
    occursIn p (joinNl cs).data = false := by
  induction cs with
  | nil =>
    cases p with
    | nil => exact absurd rfl hp0
    | cons q qs => rfl
  | cons x xs ih =>
    cases xs with
    | nil => exact h x (by simp)
    | cons y ys =>
      have hstep : (joinNl (x :: y :: ys)).data
          = x.data ++ '\n' :: (joinNl (y :: ys)).data := by
        show (x ++ "\n" ++ joinNl (y :: ys)).data = _
        rw [data_append, data_append, List.append_assoc]
        rfl
      rw [hstep]
      by_contra hocc
      rcases occursIn_append_nl p _ _ hp (by
        cases hb : occursIn p (x.data ++ '\n' :: (joinNl (y :: ys)).data)
        · exact absurd hb hocc
        · rfl) with h1 | h1
      · rw [h x (by simp)] at h1
        exact Bool.false_ne_true h1
      · rw [ih (fun z hz => h z (by simp [hz]))] at h1
        exact Bool.false_ne_true h1

/-- The regex cannot match at a position that does not carry the marker. -/
theorem matchCorrectAt_of_not_starts (l : List Char)
    (h : startsWithChars correctMarker l = false) : matchCorrectAt l = none := by
  unfold matchCorrectAt
  rw [h]
  rfl

/-- If no non-empty suffix of `a` can start a match that may continue into
`b`, the scan over `a ++ b` is the scan over `b`. -/
theorem findCorrectChars_append (a b : List Char)
    (h : ∀ s, s <:+ a → s ≠ [] → matchCorrectAt (s ++ b) = none) :
    findCorrectChars (a ++ b) = findCorrectChars b := by
  induction a with
  | nil => rfl
  | cons x xs ih =>
    simp only [List.cons_append]
    conv_lhs => unfold findCorrectChars
    have h1 : matchCorrectAt ((x :: xs) ++ b) = none :=
      h (x :: xs) (List.suffix_refl _) (by simp)
    simp only [List.cons_append] at h1
    rw [h1]
    exact ih (fun s hs hne => h s (hs.trans (List.suffix_cons x xs)) hne)

/-- Scanning the composed blob recovers the letter of the appended
correct-answer line, provided the marker occurs in no choice line. -/
theorem findCorrectChars_compose (cs : List String) (ca : String) (c : Char)
    (tail : List Char)
    (hfree : ∀ x ∈ cs, occursIn correctMarker x.data = false)
    (hca : ca.data.head? = some c)
    (hletter : c = 'A' ∨ c = 'B' ∨ c = 'C' ∨ c = 'D') :
    findCorrectChars ((joinNl cs).data
        ++ '\n' :: '\n' :: '正' :: '解' :: ':' :: ' ' :: (ca.data ++ tail))
      = some c := by
  have hOccA : occursIn correctMarker ((joinNl cs).data ++ ['\n']) = false := by
    by_contra hocc
    have htrue : occursIn correctMarker ((joinNl cs).data ++ '\n' :: []) = true := by
      cases hb : occursIn correctMarker ((joinNl cs).data ++ '\n' :: [])
      · exact absurd (by simpa using hb) hocc
      · rfl
    rcases occursIn_append_nl _ _ _ (by decide) htrue with h1 | h1
    · rw [occursIn_joinNl _ cs (by decide) (by decide) hfree] at h1
      exact Bool.false_ne_true h1
    · simp [occursIn, startsWithChars] at h1
  have hsplit : (joinNl cs).data
        ++ '\n' :: '\n' :: '正' :: '解' :: ':' :: ' ' :: (ca.data ++ tail)
      = ((joinNl cs).data ++ ['\n'])
        ++ ('\n' :: '正' :: '解' :: ':' :: ' ' :: (ca.data ++ tail)) := by
    simp
  rw [hsplit, findCorrectChars_append]
  · obtain ⟨cd, hcd⟩ : ∃ cd, ca.data = c :: cd := by
      cases hd : ca.data with
      | nil => rw [hd] at hca; simp at hca
      | cons z zs =>
        rw [hd] at hca
        simp only [List.head?_cons, Option.some.injEq] at hca
        exact ⟨zs, by rw [hca]⟩
    conv_lhs => unfold findCorrectChars
    have hmatch : matchCorrectAt
        ('\n' :: '正' :: '解' :: ':' :: ' ' :: (ca.data ++ tail)) = none := by
      apply matchCorrectAt_of_not_starts
      rfl
    rw [hmatch]
    conv_lhs => unfold findCorrectChars
    have hmatch2 : matchCorrectAt ('正' :: '解' :: ':' :: ' ' :: (ca.data ++ tail))
        = some c := by
      unfold matchCorrectAt
      rw [if_pos (by rfl)]
      show wsThenLetter (' ' :: (ca.data ++ tail)) = some c
      rw [hcd]
      simp only [List.cons_append]
      unfold wsThenLetter
      rw [if_pos (by rfl)]
      unfold wsThenLetter
      rcases hletter with h' | h' | h' | h' <;> subst h' <;> rfl
    rw [hmatch2]
  · intro s hs hne
    apply matchCorrectAt_of_not_starts
    rcases s with _ | ⟨c1, s'⟩
    · exact absurd rfl hne
    by_cases h1 : c1 = '正'
    · subst h1
      rcases s' with _ | ⟨c2, s''⟩
      · rfl
      by_cases h2 : c2 = '解'
      · subst h2
        rcases s'' with _ | ⟨c3, s'''⟩
        · rfl
        by_cases h3 : c3 = ':'
        · subst h3
          by_contra hstart
          have hst : startsWithChars correctMarker ('正' :: '解' :: ':' :: s''') = true := by
            rfl
          have := occursIn_of_suffix correctMarker _ _ hs hst
          rw [hOccA] at this
          exact Bool.false_ne_true this
        · show (('正' == '正') && (('解' == '解') && ((':' == c3) &&
              startsWithChars [] _))) = false
          have : (':' == c3) = false := by
            cases hb : (':' == c3)
            · rfl
            · exact absurd (beq_iff_eq.mp hb).symm h3
          simp [this]
      · show (('正' == '正') && (('解' == c2) && _)) = false
        have : ('解' == c2) = false := by
          cases hb : ('解' == c2)
          · rfl
          · exact absurd (beq_iff_eq.mp hb).symm h2
        simp [this]
    · show (('正' == c1) && _) = false
      have : ('正' == c1) = false := by
        cases hb : ('正' == c1)
        · rfl
        · exact absurd (beq_iff_eq.mp hb).symm h1
      simp [this]

/-- An empty line is skipped by the parsing loop. -/
theorem parseLine_empty (question_type : String) (acc : ParseAcc) :
    parseLine question_type acc "" = acc := rfl

/-- A trimmed line of the form `X) ...` (X among A–D) is collected as a
choice by the multiple-choice parsing loop and changes nothing else. -/
theorem parseLine_choice (acc : ParseAcc) (ch : String)
    (hm : ∃ m rest, (m = 'A' ∨ m = 'B' ∨ m = 'C' ∨ m = 'D') ∧ ch.data = m :: ')' :: rest)
    (hlast : ∀ d, ch.data.getLast? = some d → isPySpace d = false) :
    parseLine "multiple_choice" acc ch = { acc with choices := acc.choices ++ [ch] } := by
  obtain ⟨m, rest, hm4, hdata⟩ := hm
  have hhead : ∀ d, ch.data.head? = some d → isPySpace d = false := by
    intro d hd
    rw [hdata] at hd
    simp only [List.head?_cons, Option.some.injEq] at hd
    subst hd
    rcases hm4 with h | h | h | h <;> subst h <;> rfl
  have hstrip : pyStrip ch = ch := by
    show (⟨pyStripChars ch.data⟩ : String) = ch
    rw [pyStripChars_noop ch.data hhead hlast]
  have hne : ch ≠ "" := by
    intro h
    rw [h] at hdata
    simp at hdata
  have hq : (startsWithS ch "質問:" || startsWithS ch "Q:") = false := by
    unfold startsWithS
    rw [hdata]
    rcases hm4 with h | h | h | h <;> subst h <;> rfl
  have ha : (startsWithS ch "回答:" || startsWithS ch "A:") = false := by
    unfold startsWithS
    rw [hdata]
    rcases hm4 with h | h | h | h <;> subst h <;> rfl
  have hcor : startsWithS ch "正解:" = false := by
    unfold startsWithS
    rw [hdata]
    rcases hm4 with h | h | h | h <;> subst h <;> rfl
  have hexp : startsWithS ch "解説:" = false := by
    unfold startsWithS
    rw [hdata]
    rcases hm4 with h | h | h | h <;> subst h <;> rfl
  have hch : (startsWithS ch "A)" || startsWithS ch "B)" ||
      startsWithS ch "C)" || startsWithS ch "D)") = true := by
    unfold startsWithS
    rw [hdata]
    rcases hm4 with h | h | h | h <;> subst h <;> rfl
  simp only [parseLine, hstrip, hq, ha, hcor, hexp, hch, Bool.false_eq_true, if_false,
    if_neg hne]
  simp

/-- The correct-answer line dispatches to the `正解:` branch. -/
theorem parseLine_correct (question_type : String) (acc : ParseAcc) (ca : String)
    (c : Char) (cd : List Char) (hcd : ca.data = c :: cd)
    (hlast : ∀ d, ca.data.getLast? = some d → isPySpace d = false) :
    parseLine question_type acc ("正解: " ++ ca)
      = { acc with correct_answer := afterColon ("正解: " ++ ca) } := by
  have hdata : ("正解: " ++ ca).data = '正' :: '解' :: ':' :: ' ' :: ca.data := by
    rw [data_append]
    rfl
  have hstrip : pyStrip ("正解: " ++ ca) = "正解: " ++ ca := by
    show (⟨pyStripChars ("正解: " ++ ca).data⟩ : String) = _
    rw [pyStripChars_noop _ ?hh ?hl]
    case hh =>
      intro d hd
      rw [hdata] at hd
      simp only [List.head?_cons, Option.some.injEq] at hd
      subst hd
      rfl
    case hl =>
      intro d hd
      rw [hdata] at hd
      have : ('正' :: '解' :: ':' :: ' ' :: ca.data).getLast? = ca.data.getLast? := by
        show ((['正', '解', ':', ' '] : List Char) ++ ca.data).getLast? = _
        exact getLast?_append_right _ _ (by rw [hcd]; simp)
      rw [this] at hd
      exact hlast d hd
  have hne : ("正解: " ++ ca) ≠ "" := by
    intro h
    have := congrArg String.data h
    rw [hdata] at this
    simp at this
  have hq : (startsWithS ("正解: " ++ ca) "質問:" || startsWithS ("正解: " ++ ca) "Q:")
      = false := by
    unfold startsWithS
    rw [hdata]
    rfl
  have ha : (startsWithS ("正解: " ++ ca) "回答:" || startsWithS ("正解: " ++ ca) "A:")
      = false := by
    unfold startsWithS
    rw [hdata]
    rfl
  have hcor : startsWithS ("正解: " ++ ca) "正解:" = true := by
    unfold startsWithS
    rw [hdata]
    rfl
  simp only [parseLine, hstrip, hq, ha, hcor, Bool.false_eq_true, if_false, if_neg hne,
    if_true]

/-- The explanation line dispatches to the `解説:` branch and leaves the
choices and the correct answer unchanged. -/
theorem parseLine_expl (question_type : String) (acc : ParseAcc) (e : String)
    (hene : e.data ≠ [])
    (hlast : ∀ d, e.data.getLast? = some d → isPySpace d = false) :
    parseLine question_type acc ("解説: " ++ e)
      = { acc with explanation := afterColon ("解説: " ++ e) } := by
  have hdata : ("解説: " ++ e).data = '解' :: '説' :: ':' :: ' ' :: e.data := by
    rw [data_append]
    rfl
  have hstrip : pyStrip ("解説: " ++ e) = "解説: " ++ e := by
    show (⟨pyStripChars ("解説: " ++ e).data⟩ : String) = _
    rw [pyStripChars_noop _ ?hh ?hl]
    case hh =>
      intro d hd
      rw [hdata] at hd
      simp only [List.head?_cons, Option.some.injEq] at hd
      subst hd
      rfl
    case hl =>
      intro d hd
      rw [hdata] at hd
      have : ('解' :: '説' :: ':' :: ' ' :: e.data).getLast? = e.data.getLast? := by
        show ((['解', '説', ':', ' '] : List Char) ++ e.data).getLast? = _
        exact getLast?_append_right _ _ hene
      rw [this] at hd
      exact hlast d hd
  have hne : ("解説: " ++ e) ≠ "" := by
    intro h
    have := congrArg String.data h
    rw [hdata] at this
    simp at this
  have hq : (startsWithS ("解説: " ++ e) "質問:" || startsWithS ("解説: " ++ e) "Q:")
      = false := by
    unfold startsWithS
    rw [hdata]
    rfl
  have ha : (startsWithS ("解説: " ++ e) "回答:" || startsWithS ("解説: " ++ e) "A:")
      = false := by
    unfold startsWithS
    rw [hdata]
    rfl
  have hcor : startsWithS ("解説: " ++ e) "正解:" = false := by
    unfold startsWithS
    rw [hdata]
    rfl
  have hexp : startsWithS ("解説: " ++ e) "解説:" = true := by
    unfold startsWithS
    rw [hdata]
    rfl
  simp only [parseLine, hstrip, hq, ha, hcor, hexp, Bool.false_eq_true, if_false,
    if_neg hne, if_true]

/-- Folding the parsing loop over well-formed choice lines appends them all
to the accumulator's choice list and changes nothing else. -/
theorem foldl_parseLine_choices (cs : List String) (acc : ParseAcc)
    (hch : ∀ ch ∈ cs,
      (∃ m rest, (m = 'A' ∨ m = 'B' ∨ m = 'C' ∨ m = 'D') ∧ ch.data = m :: ')' :: rest)
      ∧ (∀ d, ch.data.getLast? = some d → isPySpace d = false)) :
    cs.foldl (parseLine "multiple_choice") acc = { acc with choices := acc.choices ++ cs } := by
  induction cs generalizing acc with
  | nil =>
    cases acc
    simp
  | cons x xs ih =>
    simp only [List.foldl_cons]
    rw [parseLine_choice acc x (hch x (by simp)).1 (hch x (by simp)).2,
      ih _ (fun ch h => hch ch (by simp [h]))]
    cases acc
    simp

/-- The text after the colon of the composed correct-answer line is exactly
the embedded correct-answer text, provided that text is trimmed. -/
theorem afterColon_correct_line (ca : String) (c : Char) (cd : List Char)
    (hcd : ca.data = c :: cd) (hcnw : isPySpace c = false)
    (hlast : ∀ d, ca.data.getLast? = some d → isPySpace d = false) :
    afterColon ("正解: " ++ ca) = ca := by
  unfold afterColon
  have hdata : ("正解: " ++ ca).data = '正' :: '解' :: ':' :: ' ' :: ca.data := by
    rw [data_append]
    rfl
  rw [hdata]
  have h1 : afterColonChars ('正' :: '解' :: ':' :: ' ' :: ca.data) = ' ' :: ca.data := rfl
  rw [h1]
  have h3 : pyStripChars (c :: cd) = c :: cd := by
    apply pyStripChars_noop
    · intro d hd
      simp only [List.head?_cons, Option.some.injEq] at hd
      subst hd
      exact hcnw
    · intro d hd
      apply hlast
      rw [hcd]
      exact hd
  have h2 : pyStripChars (' ' :: ca.data) = ca.data := by
    unfold pyStripChars at h3 ⊢
    rw [List.dropWhile_cons, if_pos (by rfl), hcd, List.dropWhile_cons,
      if_neg (by rw [hcnw]; simp)]
    rw [List.dropWhile_cons, if_neg (by rw [hcnw]; simp)] at h3
    rw [h3, ← hcd]
  rw [h2]

/-- The head of the joined choice lines is the head of the first choice. -/
theorem joinNl_head? (x : String) (xs : List String) (hx : x.data ≠ []) :
    (joinNl (x :: xs)).data.head? = x.data.head? := by
  cases xs with
  | nil => rfl
  | cons y ys =>
    show ((x ++ "\n" ++ joinNl (y :: ys))).data.head? = _
    rw [data_append, data_append, List.append_assoc, head?_append_left _ _ hx]

/-- **C5 counterexample**: the round-trip claim quantifies over every
multiple-choice parse with at least one choice line and a correct letter.  A
choice line may itself contain the `正解:` marker; the grading regex then
matches that earlier occurrence and recovers a different letter than the one
embedded by the parser: here the parse stores correct letter `A` but the
blob re-parse yields `C`. -/
theorem C5_counterexample :
    (parse_qa_response "質問: 首都はどれか\nA) 正解: C を選ぶ\nB) 東京\n正解: A\n解説: 説明"
        "easy" "multiple_choice").choices = ["A) 正解: C を選ぶ", "B) 東京"]
    ∧ (parse_qa_response "質問: 首都はどれか\nA) 正解: C を選ぶ\nB) 東京\n正解: A\n解説: 説明"
        "easy" "multiple_choice").correct_answer = "A"
    ∧ (parse_qa_response "質問: 首都はどれか\nA) 正解: C を選ぶ\nB) 東京\n正解: A\n解説: 説明"
        "easy" "multiple_choice").answer
      = "A) 正解: C を選ぶ\nB) 東京\n\n正解: A\n解説: 説明"
    ∧ findCorrectS (parse_qa_response
        "質問: 首都はどれか\nA) 正解: C を選ぶ\nB) 東京\n正解: A\n解説: 説明"
        "easy" "multiple_choice").answer = some 'C' :=
  ⟨rfl, rfl, rfl, by decide⟩

/-- **C5 amended**: the round-trip holds under the side condition that no
choice line contains the correct-answer marker `正解:`.  For a blob composed
(by the parser's composition rule) from a non-empty list of trimmed,
newline-free choice lines each beginning with one of the four choice
markers, a trimmed newline-free correct-answer text beginning with a letter
`c` among A–D, and a trimmed newline-free explanation text, re-parsing the
blob with the parser's line loop recovers exactly the original choice lines
and the original correct-answer text, and the grading regex recovers the
letter `c`.  (Without the marker-freedom condition the recovered letter can
differ — see the counterexample.) -/
theorem C5_roundtrip_amended (cs : List String) (ca e : String) (c : Char)
    (hcs : cs ≠ [])
    (hch : ∀ ch ∈ cs,
      (∃ m rest, (m = 'A' ∨ m = 'B' ∨ m = 'C' ∨ m = 'D') ∧ ch.data = m :: ')' :: rest)
      ∧ '\n' ∉ ch.data
      ∧ (∀ d, ch.data.getLast? = some d → isPySpace d = false)
      ∧ occursIn correctMarker ch.data = false)
    (hcahead : ca.data.head? = some c)
    (hletter : c = 'A' ∨ c = 'B' ∨ c = 'C' ∨ c = 'D')
    (hcanl : '\n' ∉ ca.data)
    (hcalast : ∀ d, ca.data.getLast? = some d → isPySpace d = false)
    (henl : '\n' ∉ e.data)
    (helast : ∀ d, e.data.getLast? = some d → isPySpace d = false) :
    (parseLines "multiple_choice" (splitLinesS (pyStrip (composeAnswer cs ca e)))).choices = cs
    ∧ (parseLines "multiple_choice"
        (splitLinesS (pyStrip (composeAnswer cs ca e)))).correct_answer = ca
    ∧ findCorrectS (composeAnswer cs ca e) = some c := by
  obtain ⟨cd, hcd⟩ : ∃ cd, ca.data = c :: cd := by
    cases hd : ca.data with
    | nil => rw [hd] at hcahead; simp at hcahead
    | cons z zs =>
      rw [hd] at hcahead
      simp only [List.head?_cons, Option.some.injEq] at hcahead
      subst hcahead
      exact ⟨zs, rfl⟩
  have hcnw : isPySpace c = false := by
    rcases hletter with h | h | h | h <;> subst h <;> rfl
  have hca_ne : ca ≠ "" := by
    intro h
    rw [h] at hcd
    simp at hcd
  rcases cs with _ | ⟨ch0, cs0⟩
  · exact absurd rfl hcs
  obtain ⟨⟨m0, rest0, hm0, hch0data⟩, hch0nl, hch0last, hch0free⟩ := hch ch0 (by simp)
  have hm0nw : isPySpace m0 = false := by
    rcases hm0 with h | h | h | h <;> subst h <;> rfl
  have hjne : (joinNl (ch0 :: cs0)).data ≠ [] := by
    intro hn
    have h := joinNl_head? ch0 cs0 (by rw [hch0data]; simp)
    rw [hn, hch0data] at h
    simp at h
  have hjhead : ∀ d, (joinNl (ch0 :: cs0)).data.head? = some d → isPySpace d = false := by
    intro d hd
    rw [joinNl_head? ch0 cs0 (by rw [hch0data]; simp), hch0data] at hd
    simp only [List.head?_cons, Option.some.injEq] at hd
    subst hd
    exact hm0nw
  have hchnl : ∀ x ∈ (ch0 :: cs0), '\n' ∉ x.data := fun x hx => (hch x hx).2.1
  have hchlast : ∀ ch ∈ (ch0 :: cs0),
      (∃ m rest, (m = 'A' ∨ m = 'B' ∨ m = 'C' ∨ m = 'D') ∧ ch.data = m :: ')' :: rest)
      ∧ (∀ d, ch.data.getLast? = some d → isPySpace d = false) :=
    fun ch h => ⟨(hch ch h).1, (hch ch h).2.2.1⟩
  have hmk : (⟨'正' :: '解' :: ':' :: ' ' :: ca.data⟩ : String) = "正解: " ++ ca := rfl
  by_cases he : e = ""
  · subst he
    have hbd : (composeAnswer (ch0 :: cs0) ca "").data
        = (joinNl (ch0 :: cs0)).data
          ++ '\n' :: '\n' :: '正' :: '解' :: ':' :: ' ' :: ca.data := by
      unfold composeAnswer
      rw [if_pos hca_ne, if_neg (by simp), data_append, data_append, data_append]
      have hz : ("" : String).data = [] := rfl
      rw [hz, List.append_nil]
      rfl
    have hrest_nl : '\n' ∉ ('正' :: '解' :: ':' :: ' ' :: ca.data) := by
      simp only [List.mem_cons]
      push_neg
      refine ⟨by decide, by decide, by decide, by decide, hcanl⟩
    have hlines : splitLinesChars (composeAnswer (ch0 :: cs0) ca "").data
        = (ch0 :: cs0).map String.data ++ [[], '正' :: '解' :: ':' :: ' ' :: ca.data] := by
      rw [hbd, splitLinesChars_joinNl (ch0 :: cs0) _ (by simp) hchnl]
      congr 1
      conv_lhs => unfold splitLinesChars
      rw [if_pos rfl, splitLinesChars_no_nl _ hrest_nl]
    have hh : ∀ d, (composeAnswer (ch0 :: cs0) ca "").data.head? = some d →
        isPySpace d = false := by
      intro d hd
      rw [hbd, head?_append_left _ _ hjne] at hd
      exact hjhead d hd
    have hl : ∀ d, (composeAnswer (ch0 :: cs0) ca "").data.getLast? = some d →
        isPySpace d = false := by
      intro d hd
      rw [hbd] at hd
      have hsh : (joinNl (ch0 :: cs0)).data
            ++ '\n' :: '\n' :: '正' :: '解' :: ':' :: ' ' :: ca.data
          = ((joinNl (ch0 :: cs0)).data ++ ['\n', '\n', '正', '解', ':', ' ']) ++ ca.data := by
        simp
      rw [hsh, getLast?_append_right _ _ (by rw [hcd]; simp)] at hd
      exact hcalast d hd
    have hstripnoop : pyStrip (composeAnswer (ch0 :: cs0) ca "")
        = composeAnswer (ch0 :: cs0) ca "" := by
      show (⟨pyStripChars (composeAnswer (ch0 :: cs0) ca "").data⟩ : String) = _
      rw [pyStripChars_noop _ hh hl]
    have hlinesS : splitLinesS (pyStrip (composeAnswer (ch0 :: cs0) ca ""))
        = (ch0 :: cs0) ++ ["", "正解: " ++ ca] := by
      rw [hstripnoop]
      unfold splitLinesS
      rw [hlines, List.map_append]
      congr 1
      rw [List.map_map]
      have hid : String.mk ∘ String.data = id := rfl
      rw [hid, List.map_id]
    have hfold : parseLines "multiple_choice" ((ch0 :: cs0) ++ ["", "正解: " ++ ca])
        = { question := "", answer := "", choices := ch0 :: cs0,
            correct_answer := afterColon ("正解: " ++ ca), explanation := "" } := by
      unfold parseLines
      rw [List.foldl_append, foldl_parseLine_choices _ _ hchlast]
      simp only [List.foldl_cons, List.foldl_nil]
      rw [parseLine_empty, parseLine_correct _ _ ca c cd hcd hcalast]
      rfl
    refine ⟨?_, ?_, ?_⟩
    · rw [hlinesS, hfold]
    · rw [hlinesS, hfold]
      exact afterColon_correct_line ca c cd hcd hcnw hcalast
    · show findCorrectChars (composeAnswer (ch0 :: cs0) ca "").data = some c
      rw [hbd]
      have h := findCorrectChars_compose (ch0 :: cs0) ca c []
        (fun x hx => (hch x hx).2.2.2) hcahead hletter
      simpa using h
  · have hene : e.data ≠ [] := by
      intro hn
      apply he
      cases e with
      | mk d =>
        have hd : d = [] := hn
        subst hd
        rfl
    have hbd : (composeAnswer (ch0 :: cs0) ca e).data
        = (joinNl (ch0 :: cs0)).data
          ++ '\n' :: '\n' :: '正' :: '解' :: ':' :: ' '
            :: (ca.data ++ '\n' :: '解' :: '説' :: ':' :: ' ' :: e.data) := by
      unfold composeAnswer
      rw [if_pos hca_ne, if_pos he, data_append, data_append, data_append, data_append]
      simp only [List.append_assoc]
      rfl
    have hcorr_nl : '\n' ∉ ('正' :: '解' :: ':' :: ' ' :: ca.data) := by
      simp only [List.mem_cons]
      push_neg
      refine ⟨by decide, by decide, by decide, by decide, hcanl⟩
    have hexpl_nl : '\n' ∉ ('解' :: '説' :: ':' :: ' ' :: e.data) := by
      simp only [List.mem_cons]
      push_neg
      refine ⟨by decide, by decide, by decide, by decide, henl⟩
    have hlines : splitLinesChars (composeAnswer (ch0 :: cs0) ca e).data
        = (ch0 :: cs0).map String.data
          ++ [[], '正' :: '解' :: ':' :: ' ' :: ca.data,
              '解' :: '説' :: ':' :: ' ' :: e.data] := by
      rw [hbd, splitLinesChars_joinNl (ch0 :: cs0) _ (by simp) hchnl]
      congr 1
      conv_lhs => unfold splitLinesChars
      rw [if_pos rfl]
      have hshape : '正' :: '解' :: ':' :: ' '
            :: (ca.data ++ '\n' :: '解' :: '説' :: ':' :: ' ' :: e.data)
          = ('正' :: '解' :: ':' :: ' ' :: ca.data)
            ++ '\n' :: ('解' :: '説' :: ':' :: ' ' :: e.data) := by
        simp
      rw [hshape, splitLinesChars_append_nl _ _ hcorr_nl,
        splitLinesChars_no_nl _ hexpl_nl]
    have hh : ∀ d, (composeAnswer (ch0 :: cs0) ca e).data.head? = some d →
        isPySpace d = false := by
      intro d hd
      rw [hbd, head?_append_left _ _ hjne] at hd
      exact hjhead d hd
    have hl : ∀ d, (composeAnswer (ch0 :: cs0) ca e).data.getLast? = some d →
        isPySpace d = false := by
      intro d hd
      rw [hbd] at hd
      have hsh : (joinNl (ch0 :: cs0)).data
            ++ '\n' :: '\n' :: '正' :: '解' :: ':' :: ' '
              :: (ca.data ++ '\n' :: '解' :: '説' :: ':' :: ' ' :: e.data)
          = ((joinNl (ch0 :: cs0)).data ++ ['\n', '\n', '正', '解', ':', ' ']
              ++ ca.data ++ ['\n', '解', '説', ':', ' ']) ++ e.data := by
        simp
      rw [hsh, getLast?_append_right _ _ hene] at hd
      exact helast d hd
    have hstripnoop : pyStrip (composeAnswer (ch0 :: cs0) ca e)
        = composeAnswer (ch0 :: cs0) ca e := by
      show (⟨pyStripChars (composeAnswer (ch0 :: cs0) ca e).data⟩ : String) = _
      rw [pyStripChars_noop _ hh hl]
    have hmk2 : (⟨'解' :: '説' :: ':' :: ' ' :: e.data⟩ : String) = "解説: " ++ e := rfl
    have hlinesS : splitLinesS (pyStrip (composeAnswer (ch0 :: cs0) ca e))
        = (ch0 :: cs0) ++ ["", "正解: " ++ ca, "解説: " ++ e] := by
      rw [hstripnoop]
      unfold splitLinesS
      rw [hlines, List.map_append]
      congr 1
      rw [List.map_map]
      have hid : String.mk ∘ String.data = id := rfl
      rw [hid, List.map_id]
    have hfold : parseLines "multiple_choice"
          ((ch0 :: cs0) ++ ["", "正解: " ++ ca, "解説: " ++ e])
        = { question := "", answer := "", choices := ch0 :: cs0,
            correct_answer := afterColon ("正解: " ++ ca),
            explanation := afterColon ("解説: " ++ e) } := by
      unfold parseLines
      rw [List.foldl_append, foldl_parseLine_choices _ _ hchlast]
      simp only [List.foldl_cons, List.foldl_nil]
      rw [parseLine_empty, parseLine_correct _ _ ca c cd hcd hcalast,
        parseLine_expl _ _ e hene helast]
      rfl
    refine ⟨?_, ?_, ?_⟩
    · rw [hlinesS, hfold]
    · rw [hlinesS, hfold]
      exact afterColon_correct_line ca c cd hcd hcnw hcalast
    · show findCorrectChars (composeAnswer (ch0 :: cs0) ca e).data = some c
      rw [hbd]
      exact findCorrectChars_compose (ch0 :: cs0) ca c
        ('\n' :: '解' :: '説' :: ':' :: ' ' :: e.data)
        (fun x hx => (hch x hx).2.2.2) hcahead hletter

/-- Concrete instance of `C5_roundtrip_amended`: a blob composed from two
marker-free choice lines, correct answer `A` and an explanation round-trips
to the same choices, the same correct text and the letter `A`. -/
theorem C5_roundtrip_amended_witness :
    (parseLines "multiple_choice"
        (splitLinesS (pyStrip (composeAnswer ["A) 東京", "B) 大阪"] "A" "説明です")))).choices
      = ["A) 東京", "B) 大阪"]
    ∧ (parseLines "multiple_choice"
        (splitLinesS (pyStrip
          (composeAnswer ["A) 東京", "B) 大阪"] "A" "説明です")))).correct_answer = "A"
    ∧ findCorrectS (composeAnswer ["A) 東京", "B) 大阪"] "A" "説明です") = some 'A' :=
  C5_roundtrip_amended ["A) 東京", "B) 大阪"] "A" "説明です" 'A'
    (by decide)
    (by
      intro ch h
      fin_cases h
      · refine ⟨⟨'A', [' ', '東', '京'], Or.inl rfl, rfl⟩, by decide, ?_, by decide⟩
        intro d hd
        injection hd with h2
        subst h2
        rfl
      · refine ⟨⟨'B', [' ', '大', '阪'], Or.inr (Or.inl rfl), rfl⟩, by decide, ?_, by decide⟩
        intro d hd
        injection hd with h2
        subst h2
        rfl)
    rfl (Or.inl rfl) (by decide)
    (by
      intro d hd
      injection hd with h2
      subst h2
      rfl)
    (by decide)
    (by
      intro d hd
      injection hd with h2
      subst h2
      rfl)
